import Mathlib

/-!
Verification of the ReclassX node-tree / byte-source core.

This file gives a shallow embedding of the repository's data model
(`NodeKind`, `Node`, `NodeTree`), its byte-source providers
(`NullProvider`, `BufferProvider`), the type-catalog dedup logic, the
command/undo layer, and the ReClassEx XML export control flow, and
proves the specification's claims about them.

Functions present in the repository sources (`export_reclass_xml.cpp`,
`buffer_provider.h`, `null_provider.h`) are translated directly from
that code.  Functions that live in headers absent from the source drop
(`core.h`, `provider.h`, `controller.cpp`) are modelled from the
specification text; each such definition carries a doc comment starting
with "Modelled from the spec:".
-/

namespace Rcx

/-- The closed set of node kinds, as enumerated by `xmlTypeForKind` in
`export_reclass_xml.cpp` plus `Padding` (used throughout `main.cpp`). -/
inductive NodeKind where
  | Struct
  | Array
  | Padding
  | Int8
  | Int16
  | Int32
  | Int64
  | UInt8
  | UInt16
  | UInt32
  | UInt64
  | Hex8
  | Hex16
  | Hex32
  | Hex64
  | Float
  | Double
  | Bool
  | UTF8
  | UTF16
  | Pointer32
  | Pointer64
  | Vec2
  | Vec3
  | Vec4
  | Mat4x4
  deriving DecidableEq, Repr

/-- Modelled from the spec: `sizeForKind` lives in `core.h`, which is not
among the repository sources (its callers in `export_reclass_xml.cpp` and
the tests are).  Per spec §4.2 / §3 it is the fixed width table: integer
and hex kinds have width 8/16/32/64 bits, floats 4/8 bytes, booleans one
byte, pointers 4/8 bytes, float vectors 4 bytes per component, the 4x4
float matrix 64 bytes; variable-length kinds (Struct, Array, Padding,
strings) have no fixed size and yield 0. -/
def sizeForKind : NodeKind → Int
  | NodeKind.Struct => 0
  | NodeKind.Array => 0
  | NodeKind.Padding => 0
  | NodeKind.UTF8 => 0
  | NodeKind.UTF16 => 0
  | NodeKind.Int8 => 1
  | NodeKind.UInt8 => 1
  | NodeKind.Hex8 => 1
  | NodeKind.Bool => 1
  | NodeKind.Int16 => 2
  | NodeKind.UInt16 => 2
  | NodeKind.Hex16 => 2
  | NodeKind.Int32 => 4
  | NodeKind.UInt32 => 4
  | NodeKind.Hex32 => 4
  | NodeKind.Float => 4
  | NodeKind.Pointer32 => 4
  | NodeKind.Int64 => 8
  | NodeKind.UInt64 => 8
  | NodeKind.Hex64 => 8
  | NodeKind.Double => 8
  | NodeKind.Pointer64 => 8
  | NodeKind.Vec2 => 8
  | NodeKind.Vec3 => 12
  | NodeKind.Vec4 => 16
  | NodeKind.Mat4x4 => 64

/-- One element of a layout tree, with the fields used by the sources
(spec §3): identity, kind, display name, parent link, sibling-relative
offset, array length, array element kind, struct type name, reference
id, string length, and the collapsed display flag. -/
structure Node where
  id : Nat
  kind : NodeKind
  name : String
  parentId : Nat
  offset : Int
  arrayLen : Int
  elementKind : NodeKind
  structTypeName : String
  refId : Nat
  strLen : Int
  collapsed : Bool
  deriving DecidableEq, Repr

/-- Modelled from the spec: `Node::byteSize()` lives in `core.h`, absent
from the sources.  Per spec §4.2: Array = `arrayLen * sizeForKind
elementKind` (0 when the element size is unknown/variable, because
`sizeForKind` is then 0); Padding = `arrayLen`; UTF-8 string = `strLen`;
UTF-16 string = `strLen * 2`; fixed-width kinds come from the width
table.  The Struct case (sum of children extents) needs the tree
context and is outside claim scope; it is modelled as 0 here. -/
def Node.byteSize (n : Node) : Int :=
  match n.kind with
  | NodeKind.Array => n.arrayLen * sizeForKind n.elementKind
  | NodeKind.Padding => n.arrayLen
  | NodeKind.UTF8 => n.strLen
  | NodeKind.UTF16 => n.strLen * 2
  | NodeKind.Struct => 0
  | k => sizeForKind k

/-- Translated from `nodeSizeForExport` in `export_reclass_xml.cpp`
(source): UTF8 = `strLen`, UTF16 = `strLen * 2`, Array = `arrayLen *
(elemSz > 0 ? elemSz : 0)`, default = `sizeForKind(kind)`. -/
def nodeSizeForExport (n : Node) : Int :=
  match n.kind with
  | NodeKind.UTF8 => n.strLen
  | NodeKind.UTF16 => n.strLen * 2
  | NodeKind.Array =>
    let elemSz := sizeForKind n.elementKind
    n.arrayLen * (if 0 < elemSz then elemSz else 0)
  | _ => sizeForKind n.kind

/-!  ## ByteSource providers

`BufferProvider` and `NullProvider` are translated from
`buffer_provider.h` / `null_provider.h` (present in the sources).  The
`Provider` base class defaults (`isReadable`, the typed read helpers,
the non-writable `write` default) live in `provider.h`, which is absent;
those are modelled from spec §4.1 and the provider tests.

A byte buffer is a `List Nat` of byte values; `read(addr, buf, len)` is
modelled as a function from the caller's buffer to a success flag and
the resulting buffer, so "copies nothing on failure" is an equality with
the input buffer. -/

/-- Modelled from the spec: the `Provider` base-class boundary predicate
`isReadable(addr, len)` (in the absent `provider.h`).  Per §4.1 a
zero-length probe at any address — including on an empty source — is
always readable; otherwise the range `[addr, addr+len)` must lie within
`[0, size)`. -/
def isReadableDefault (size addr len : Nat) : Bool :=
  len == 0 || addr + len ≤ size

/-- Modelled from the spec: the base-class in-place read helper
`readBytes(addr, len)` allocates a zero-filled buffer of `len` bytes and
runs the virtual `read` into it, so a failed read leaves it all zero
(§4.1 zero-fill-on-failure; tests `nullProvider_readBytesReturnsZeroed`,
`buffer_readBytes_pastEnd`).  `rd` is the provider's `read`. -/
def readBytesVia (rd : Nat → Nat → List Nat → Bool × List Nat)
    (addr len : Nat) : List Nat :=
  (rd addr len (List.replicate len 0)).2

/-- Little-endian value of a byte list (least significant byte first),
as produced by `memcpy` into an integer on a little-endian target. -/
def fromLE : List Nat → Nat
  | [] => 0
  | b :: rest => b + 256 * fromLE rest

/-- Modelled from the spec: typed helper `readU8` — read one byte into a
zero-initialised integer, returning 0 on failure (§4.1). -/
def readU8Via (rd : Nat → Nat → List Nat → Bool × List Nat)
    (addr : Nat) : Nat :=
  fromLE (readBytesVia rd addr 1)

/-- Modelled from the spec: typed helper `readU16`, little-endian,
zero on failure (§4.1). -/
def readU16Via (rd : Nat → Nat → List Nat → Bool × List Nat)
    (addr : Nat) : Nat :=
  fromLE (readBytesVia rd addr 2)

/-- Modelled from the spec: typed helper `readU32`, little-endian,
zero on failure (§4.1). -/
def readU32Via (rd : Nat → Nat → List Nat → Bool × List Nat)
    (addr : Nat) : Nat :=
  fromLE (readBytesVia rd addr 4)

/-- Modelled from the spec: typed helper `readU64`, little-endian,
zero on failure (§4.1). -/
def readU64Via (rd : Nat → Nat → List Nat → Bool × List Nat)
    (addr : Nat) : Nat :=
  fromLE (readBytesVia rd addr 8)

/-- The in-memory buffer byte source (`buffer_provider.h`, source). -/
structure BufferProvider where
  data : List Nat
  deriving DecidableEq, Repr

/-- `BufferProvider::size`: the backing array's length (source). -/
def BufferProvider.size (p : BufferProvider) : Nat :=
  p.data.length

/-- `BufferProvider` inherits the base `isReadable` over its own size. -/
def BufferProvider.isReadable (p : BufferProvider) (addr len : Nat) : Bool :=
  isReadableDefault p.size addr len

/-- `BufferProvider::read` (source): bounds-check via `isReadable`, then
`memcpy(buf, data + addr, len)`; on failure the caller's buffer is
untouched.  The copy overwrites the first `len` bytes of `buf`. -/
def BufferProvider.read (p : BufferProvider) (addr len : Nat)
    (buf : List Nat) : Bool × List Nat :=
  if p.isReadable addr len then
    let src := (p.data.drop addr).take len
    (true, src ++ buf.drop src.length)
  else
    (false, buf)

/-- `BufferProvider::isWritable` (source): always true. -/
def BufferProvider.isWritable (_p : BufferProvider) : Bool :=
  true

/-- `BufferProvider::write` (source): bounds-check via `isReadable`, then
`memcpy(data + addr, buf, len)` — the whole span is spliced in, or the
backing store is left unchanged. -/
def BufferProvider.write (p : BufferProvider) (addr : Nat)
    (bytes : List Nat) : Bool × BufferProvider :=
  if p.isReadable addr bytes.length then
    (true, ⟨p.data.take addr ++ bytes ++ p.data.drop (addr + bytes.length)⟩)
  else
    (false, p)

/-- `BufferProvider.readBytes`, base helper over the virtual `read`. -/
def BufferProvider.readBytes (p : BufferProvider) (addr len : Nat) : List Nat :=
  readBytesVia p.read addr len

/-- `BufferProvider.readU8`, base helper over the virtual `read`. -/
def BufferProvider.readU8 (p : BufferProvider) (addr : Nat) : Nat :=
  readU8Via p.read addr

/-- `BufferProvider.readU16`, base helper over the virtual `read`. -/
def BufferProvider.readU16 (p : BufferProvider) (addr : Nat) : Nat :=
  readU16Via p.read addr

/-- `BufferProvider.readU32`, base helper over the virtual `read`. -/
def BufferProvider.readU32 (p : BufferProvider) (addr : Nat) : Nat :=
  readU32Via p.read addr

/-- `BufferProvider.readU64`, base helper over the virtual `read`. -/
def BufferProvider.readU64 (p : BufferProvider) (addr : Nat) : Nat :=
  readU64Via p.read addr

/-- The empty/unavailable byte source (`null_provider.h`, source): size
0, every read returns false, not writable, empty name. -/
structure NullProvider where
  deriving DecidableEq, Repr

/-- `NullProvider::size` (source): 0. -/
def NullProvider.size (_p : NullProvider) : Nat :=
  0

/-- `NullProvider::read` (source): unconditionally false, buffer
untouched. -/
def NullProvider.read (_p : NullProvider) (_addr _len : Nat)
    (buf : List Nat) : Bool × List Nat :=
  (false, buf)

/-- `NullProvider` inherits the base `isReadable` over its size 0. -/
def NullProvider.isReadable (p : NullProvider) (addr len : Nat) : Bool :=
  isReadableDefault p.size addr len

/-- `NullProvider::isWritable`: inherits the base default, false. -/
def NullProvider.isWritable (_p : NullProvider) : Bool :=
  false

/-- Modelled from the spec: the base-class `write` default (absent
`provider.h`) — a non-writable source refuses every write and changes
nothing (§4.1 "fails if not writable"). -/
def NullProvider.write (p : NullProvider) (_addr : Nat)
    (_bytes : List Nat) : Bool × NullProvider :=
  (false, p)

/-- `NullProvider.readBytes`, base helper over the virtual `read`. -/
def NullProvider.readBytes (p : NullProvider) (addr len : Nat) : List Nat :=
  readBytesVia p.read addr len

/-- `NullProvider.readU8`, base helper over the virtual `read`. -/
def NullProvider.readU8 (p : NullProvider) (addr : Nat) : Nat :=
  readU8Via p.read addr

/-- `NullProvider.readU16`, base helper over the virtual `read`. -/
def NullProvider.readU16 (p : NullProvider) (addr : Nat) : Nat :=
  readU16Via p.read addr

/-- `NullProvider.readU32`, base helper over the virtual `read`. -/
def NullProvider.readU32 (p : NullProvider) (addr : Nat) : Nat :=
  readU32Via p.read addr

/-- `NullProvider.readU64`, base helper over the virtual `read`. -/
def NullProvider.readU64 (p : NullProvider) (addr : Nat) : Nat :=
  readU64Via p.read addr

/-!  ## NodeTree -/

/-- Modelled from the spec: the `NodeTree` record (in the absent
`core.h`) — the tree's base address, the flat node collection, and the
monotonic id allocator state (§3: ids are unique, non-zero, never
reused; 0 is reserved).  The allocator starts at 1 so the first
assigned id is non-zero. -/
structure NodeTree where
  baseAddress : Nat
  nodes : List Node
  nextId : Nat
  deriving DecidableEq, Repr

/-- Modelled from the spec: `NodeTree::reserveId` (absent `core.h`; used
by the insert path in the tests) — hand out the next id and advance the
monotonic allocator. -/
def NodeTree.reserveId (t : NodeTree) : NodeTree × Nat :=
  ({ t with nextId := t.nextId + 1 }, t.nextId)

/-- Modelled from the spec: `NodeTree::addNode` (absent `core.h`) —
assign a fresh id if the node has none (id 0), append it, and return the
index of the appended node (§4.2). -/
def NodeTree.addNode (t : NodeTree) (n : Node) : NodeTree × Nat :=
  let node := if n.id == 0 then { n with id := t.nextId } else n
  let bump := if n.id == 0 then t.nextId + 1 else t.nextId
  ({ t with nodes := t.nodes ++ [node], nextId := bump }, t.nodes.length)

/-- Modelled from the spec: `NodeTree::indexOfId` (absent `core.h`) —
index of the first node with the given id, or -1 (§4.2). -/
def NodeTree.indexOfId (t : NodeTree) (nodeId : Nat) : Int :=
  match t.nodes.findIdx? (fun n => n.id == nodeId) with
  | some k => (k : Int)
  | none => -1

/-- Offset of the node stored at index `i` (0 when out of range); used
to phrase the `childrenOf` ordering. -/
def NodeTree.offAt (t : NodeTree) (i : Nat) : Int :=
  match t.nodes.get? i with
  | some n => n.offset
  | none => 0

/-- Insert index `i` into a list of indices already ordered by node
offset, before the first index whose offset is not smaller — so an index
with an equal offset keeps its original (insertion-order) position
relative to it. -/
def NodeTree.insertByOff (t : NodeTree) (i : Nat) : List Nat → List Nat
  | [] => [i]
  | j :: l =>
    if t.offAt i ≤ t.offAt j then i :: j :: l
    else j :: t.insertByOff i l

/-- Stable insertion sort of node indices by offset. -/
def NodeTree.sortByOff (t : NodeTree) : List Nat → List Nat
  | [] => []
  | i :: l => t.insertByOff i (t.sortByOff l)

/-- The indices of the direct children of `pid`, in insertion order
(the order the nodes are stored in the flat collection). -/
def NodeTree.childIdxs (t : NodeTree) (pid : Nat) : List Nat :=
  (List.range t.nodes.length).filter fun i =>
    match t.nodes.get? i with
    | some n => n.parentId == pid
    | none => false

/-- Modelled from the spec: `NodeTree::childrenOf` (absent `core.h`) —
per §4.2 an ordered-by-offset sequence of the direct children's indices,
ties broken by insertion order (stable), computed without mutating the
stored node collection. -/
def NodeTree.childrenOf (t : NodeTree) (pid : Nat) : List Nat :=
  t.sortByOff (t.childIdxs pid)

/-- Translated from `resolveStructName` in `export_reclass_xml.cpp`
(source): look the id up; if absent return the empty string; else prefer
the node's non-empty `structTypeName`, falling back to its `name`. -/
def resolveStructName (t : NodeTree) (refId : Nat) : String :=
  match t.nodes.find? (fun n => n.id == refId) with
  | none => ""
  | some ref =>
    if ref.structTypeName ≠ "" then ref.structTypeName else ref.name

/-!  ## ReClassEx XML export control flow -/

/-- Outcome of `exportReclassXml`: the boolean result, the error message
written through `errorMsg` ("" when none was set), and whether the
output file was created and fully written before returning. -/
structure ExportOutcome where
  ok : Bool
  errorMsg : String
  fileWritten : Bool
  deriving DecidableEq, Repr

/-- Number of root-level Struct nodes — the `classCount` computed by the
export loop in `export_reclass_xml.cpp` (source): children of parent id
0, counting only `NodeKind::Struct`. -/
def countRootStructs (t : NodeTree) : Nat :=
  (t.nodes.filter fun n =>
    n.parentId == 0 && n.kind == NodeKind.Struct).length

/-- Translated from `exportReclassXml` in `export_reclass_xml.cpp`
(source), keeping the control flow and abstracting the XML text: fail
early on an empty tree; fail if the file cannot be opened (`canOpen`
models `QFile::open`); otherwise write the whole document and close the
file, and only then fail if no root-level Struct was exported. -/
def exportReclassXml (t : NodeTree) (filePath : String)
    (canOpen : Bool) : ExportOutcome :=
  if t.nodes.isEmpty then
    { ok := false, errorMsg := "No nodes to export", fileWritten := false }
  else if !canOpen then
    { ok := false
      errorMsg := "Cannot open file for writing: " ++ filePath
      fileWritten := false }
  else if countRootStructs t == 0 then
    { ok := false, errorMsg := "No struct classes found to export"
      fileWritten := true }
  else
    { ok := true, errorMsg := "", fileWritten := true }

/-!  ## TypeCatalog / reference resolution (spec §4.3)

The find-or-create logic lives in `controller.cpp`, absent from the
sources (only its tests are present), so it is modelled from spec §4.3:
search the local tree's root-level Structs by `structTypeName`; if
found return its id with no duplication; else deep-copy the first
matching external root's subtree with fresh ids, remapping internal
parent and reference ids; else leave the reference unresolved (0). -/

/-- A root-level Struct whose `structTypeName` equals `name` exactly. -/
def rootStructPred (name : String) (n : Node) : Bool :=
  n.parentId == 0 && n.kind == NodeKind.Struct && n.structTypeName == name

/-- Modelled from the spec: the local search of §4.3 — the first
root-level Struct with the given type name. -/
def findRootStructByName (t : NodeTree) (name : String) : Option Node :=
  t.nodes.find? (rootStructPred name)

/-- Modelled from the spec: §4.3's external search — first match wins,
in the stable caller-supplied tree order. -/
def findExternalRoot : List NodeTree → String → Option (NodeTree × Node)
  | [], _ => none
  | e :: rest, name =>
    match findRootStructByName e name with
    | some r => some (e, r)
    | none => findExternalRoot rest name

/-- One growth step of the subtree closure: add every node whose parent
is already a member and that is not itself a member yet. -/
def subtreeStep (nodes : List Node) (members : List Node) : List Node :=
  members ++ nodes.filter fun n =>
    !(members.map Node.id).contains n.id
      && (members.map Node.id).contains n.parentId

/-- Iterate the closure step. -/
def subtreeCloseAux (nodes : List Node) : Nat → List Node → List Node
  | 0, members => members
  | fuel + 1, members => subtreeCloseAux nodes fuel (subtreeStep nodes members)

/-- Modelled from the spec: the subtree of an external root — the root
together with every node of the external tree reachable from it through
parent links (§4.3 "deep-copy that subtree"). -/
def subtreeMembers (ext : NodeTree) (root : Node) : List Node :=
  subtreeCloseAux ext.nodes ext.nodes.length [root]

/-- Fresh-id remapping for a copied subtree: the `k`-th distinct member
id becomes `base + k`; ids outside the copied subtree are kept (§4.3:
remap all ids in the copied subtree consistently). -/
def remapId (memberIds : List Nat) (base old : Nat) : Nat :=
  match memberIds.findIdx? (fun x => x == old) with
  | some j => base + j
  | none => old

/-- Apply the id remapping to a copied node's own id, parent link, and
reference id (§4.3: internal cross-references are remapped to the new
ids; references leaving the subtree are kept as they are). -/
def remapNode (memberIds : List Nat) (base : Nat) (n : Node) : Node :=
  { n with
    id := remapId memberIds base n.id
    parentId := remapId memberIds base n.parentId
    refId := remapId memberIds base n.refId }

/-- Modelled from the spec: materialise an external root Struct into the
local tree (§4.3) — deep-copy its subtree with fresh ids from the local
allocator, preserving relative offsets (nodes are copied verbatim apart
from ids), append, and return the new local root id. -/
def importRootStruct (localTree ext : NodeTree) (root : Node) :
    NodeTree × Nat :=
  ({ localTree with
      nodes := localTree.nodes ++ (subtreeMembers ext root).map
        (remapNode ((subtreeMembers ext root).map Node.id) localTree.nextId)
      nextId := localTree.nextId + (subtreeMembers ext root).length },
   remapId ((subtreeMembers ext root).map Node.id) localTree.nextId root.id)

/-- Modelled from the spec: `findOrCreateStructByName` (§4.3) — local
root Structs first (no duplication when found), then the external trees
in caller order (deep-copy on first match), otherwise unresolved (id
0, local tree untouched). -/
def findOrCreateStructByName (localTree : NodeTree)
    (externalTrees : List NodeTree) (name : String) : NodeTree × Nat :=
  match findRootStructByName localTree name with
  | some n => (localTree, n.id)
  | none =>
    match findExternalRoot externalTrees name with
    | some (ext, root) => importRootStruct localTree ext root
    | none => (localTree, 0)

/-- Number of root-level Structs with the given type name. -/
def countRootStructsNamed (t : NodeTree) (name : String) : Nat :=
  (t.nodes.filter (rootStructPred name)).length

/-!  ## CommandStack (spec §4.4)

The command implementations live in `controller.cpp`, absent from the
sources (only `test_controller.cpp` is present), so the command layer is
modelled from spec §4.4 / §3: every command is a value capturing the
minimal before/after state needed for exact inversion — old and new
byte spans for a value write, old and new name/kind for rename and
change-kind, the inserted node (with its pre-reserved id), the removed
node's full value and original index, and the collapse toggle. -/

/-- List update at an index (identity when out of range), the shallow
counterpart of writing through `tree.nodes[idx]`. -/
def modifyAt (f : Node → Node) : List Node → Nat → List Node
  | [], _ => []
  | a :: l, 0 => f a :: l
  | a :: l, i + 1 => a :: modifyAt f l i

/-- Insert a value at an index, the counterpart of restoring a removed
node at its original position. -/
def insertAt (a : Node) : List Node → Nat → List Node
  | l, 0 => a :: l
  | [], _ + 1 => [a]
  | b :: l, i + 1 => b :: insertAt a l i

/-- The document state a command acts on: the layout tree plus the byte
source the value-patch commands write through. -/
structure DocState where
  tree : NodeTree
  prov : BufferProvider
  deriving DecidableEq, Repr

/-- The closed command set of spec §4.4 / §3 as exercised by
`test_controller.cpp`: a byte-level value patch, rename, change-kind,
insert, remove, and the collapse toggle. -/
inductive Cmd where
  | SetBytes (addr : Nat) (oldBytes newBytes : List Nat)
  | Rename (idx : Nat) (oldName newName : String)
  | ChangeKind (idx : Nat) (oldKind newKind : NodeKind)
  | Insert (node : Node)
  | Remove (idx : Nat) (node : Node)
  | ToggleCollapse (idx : Nat)
  deriving DecidableEq, Repr

/-- The captured state is consistent with the document the command is
applied to — what the controller guarantees when it builds the command
from the current document (§4.4): the old byte span is what the source
holds and the new span fits (a command is only enqueued if its write
succeeded), the old name/kind are the node's current ones, an inserted
node carries a fresh id, and a removed node is captured together with
its index. -/
def CmdOk (s : DocState) : Cmd → Prop
  | Cmd.SetBytes addr oldBytes newBytes =>
    addr + newBytes.length ≤ s.prov.size
      ∧ oldBytes = (s.prov.data.drop addr).take newBytes.length
  | Cmd.Rename idx oldName _ =>
    ∃ n, s.tree.nodes.get? idx = some n ∧ n.name = oldName
  | Cmd.ChangeKind idx oldKind _ =>
    ∃ n, s.tree.nodes.get? idx = some n ∧ n.kind = oldKind
  | Cmd.Insert node => ∀ n ∈ s.tree.nodes, n.id ≠ node.id
  | Cmd.Remove idx node => s.tree.nodes.get? idx = some node
  | Cmd.ToggleCollapse _ => True

/-- Modelled from the spec: a command's forward application (§4.4) —
value patches route through the byte source's `write`, structural
commands edit the node collection. -/
def applyCmd : Cmd → DocState → DocState
  | Cmd.SetBytes addr _ newBytes, s =>
    { s with prov := (s.prov.write addr newBytes).2 }
  | Cmd.Rename idx _ newName, s =>
    { s with tree := { s.tree with
        nodes := modifyAt (fun n => { n with name := newName })
          s.tree.nodes idx } }
  | Cmd.ChangeKind idx _ newKind, s =>
    { s with tree := { s.tree with
        nodes := modifyAt (fun n => { n with kind := newKind })
          s.tree.nodes idx } }
  | Cmd.Insert node, s =>
    { s with tree := { s.tree with nodes := s.tree.nodes ++ [node] } }
  | Cmd.Remove idx _, s =>
    { s with tree := { s.tree with nodes := s.tree.nodes.eraseIdx idx } }
  | Cmd.ToggleCollapse idx, s =>
    { s with tree := { s.tree with
        nodes := modifyAt (fun n => { n with collapsed := !n.collapsed })
          s.tree.nodes idx } }

/-- Modelled from the spec: a command's exact inverse (§4.4) — write the
old byte span back, restore the old name/kind, remove the inserted node
by id, re-insert the removed node at its original index, toggle the
collapse flag back. -/
def undoCmd : Cmd → DocState → DocState
  | Cmd.SetBytes addr oldBytes _, s =>
    { s with prov := (s.prov.write addr oldBytes).2 }
  | Cmd.Rename idx oldName _, s =>
    { s with tree := { s.tree with
        nodes := modifyAt (fun n => { n with name := oldName })
          s.tree.nodes idx } }
  | Cmd.ChangeKind idx oldKind _, s =>
    { s with tree := { s.tree with
        nodes := modifyAt (fun n => { n with kind := oldKind })
          s.tree.nodes idx } }
  | Cmd.Insert node, s =>
    { s with tree := { s.tree with
        nodes := s.tree.nodes.eraseP (fun n => n.id == node.id) } }
  | Cmd.Remove idx node, s =>
    { s with tree := { s.tree with
        nodes := insertAt node s.tree.nodes idx } }
  | Cmd.ToggleCollapse idx, s =>
    { s with tree := { s.tree with
        nodes := modifyAt (fun n => { n with collapsed := !n.collapsed })
          s.tree.nodes idx } }

/-!  ## Concrete inputs used by the witness theorems -/

/-- A root Struct node named "Main" (id 1), as built by
`buildPointerTree` in `test_type_visibility.cpp`. -/
def wMainRoot : Node :=
  ⟨1, NodeKind.Struct, "instance", 0, 0, 0, NodeKind.Hex8, "Main", 0, 0, false⟩

/-- A Pointer64 field (id 2) under the "Main" root. -/
def wMainPtr : Node :=
  ⟨2, NodeKind.Pointer64, "ptr", 1, 0, 0, NodeKind.Hex8, "", 0, 0, false⟩

/-- The local tree of the dedup witness: a "Main" root with a pointer
field; allocator at 3. -/
def wLocalTree : NodeTree :=
  ⟨0, [wMainRoot, wMainPtr], 3⟩

/-- The external tree of the dedup witness: a "Beta" root (id 1) with
one Int32 field (id 2). -/
def wExtTree : NodeTree :=
  ⟨0, [⟨1, NodeKind.Struct, "instance", 0, 0, 0, NodeKind.Hex8, "Beta", 0, 0, false⟩,
       ⟨2, NodeKind.Int32, "x", 1, 0, 0, NodeKind.Hex8, "", 0, 0, false⟩], 3⟩

/-- A small document for the command witness: one Struct root (id 1)
with a UInt32 field (id 2) named "fieldA", over a 4-byte buffer. -/
def wFieldNode : Node :=
  ⟨2, NodeKind.UInt32, "fieldA", 1, 0, 0, NodeKind.Hex8, "", 0, 0, false⟩

/-- The command witness document state. -/
def wDocState : DocState :=
  ⟨⟨4096, [wFieldNode], 3⟩, ⟨[17, 34, 51, 68]⟩⟩

/-- The command witness command: rename the field at index 0. -/
def wRenameCmd : Cmd :=
  Cmd.Rename 0 "fieldA" "renamed"

/-- The tree used by the `resolveStructName` witness: node id 1 with a
struct type name, node id 2 with an empty one. -/
def wResolveTree : NodeTree :=
  ⟨0, [⟨1, NodeKind.Struct, "inst", 0, 0, 0, NodeKind.Hex8, "Target", 0, 0, false⟩,
       ⟨2, NodeKind.Int32, "plain", 1, 0, 0, NodeKind.Hex8, "", 0, 0, false⟩], 3⟩

/-- The node used by the byte-size witness: an Array of 3 UInt32. -/
def wArrayNode : Node :=
  ⟨7, NodeKind.Array, "arr", 1, 0, 3, NodeKind.UInt32, "", 0, 0, false⟩

/-- The tree used by the export witness: a single root-level node that
is not a Struct, so the export writes the file and then fails. -/
def wExportTree : NodeTree :=
  ⟨0, [⟨1, NodeKind.Hex64, "lone", 0, 0, 0, NodeKind.Hex8, "", 0, 0, false⟩], 2⟩

/-!  ## Helper lemmas -/

/-- `sizeForKind` never returns a negative width. -/
theorem sizeForKind_nonneg (k : NodeKind) : 0 ≤ sizeForKind k := by
  cases k <;> decide

/-- The export code's `elemSz > 0 ? elemSz : 0` guard is the identity on
`sizeForKind`, whose values are never negative. -/
theorem posClamp_sizeForKind (k : NodeKind) :
    (if 0 < sizeForKind k then sizeForKind k else 0) = sizeForKind k := by
  cases k <;> decide

/-- The little-endian value of an all-zero span is zero. -/
theorem fromLE_replicate_zero (n : Nat) :
    fromLE (List.replicate n 0) = 0 := by
  induction n with
  | zero => rfl
  | succ m ih => simp [List.replicate, fromLE, ih]

/-!  ### Claim C6 -/

/-- **C6**: every node's byte size follows the kind formula exactly:
Array = `arrayLen * sizeForKind elementKind` (0 when the element size is
unknown/variable), Padding = `arrayLen`, fixed-width kinds come from the
width table, UTF-8 = `strLen`, UTF-16 = `strLen * 2`, and zero-length
arrays and strings contribute 0 bytes; moreover the export-size function
from `export_reclass_xml.cpp` agrees with it on every kind it is asked
to size. -/
theorem byteSize_follows_kind_formula (n : Node) :
    (n.kind = NodeKind.Array →
        n.byteSize = n.arrayLen * sizeForKind n.elementKind)
  ∧ (n.kind = NodeKind.Array → sizeForKind n.elementKind = 0 →
        n.byteSize = 0)
  ∧ (n.kind = NodeKind.Padding → n.byteSize = n.arrayLen)
  ∧ (n.kind = NodeKind.UTF8 → n.byteSize = n.strLen)
  ∧ (n.kind = NodeKind.UTF16 → n.byteSize = n.strLen * 2)
  ∧ (n.kind ≠ NodeKind.Struct → n.kind ≠ NodeKind.Array →
        n.kind ≠ NodeKind.Padding → n.kind ≠ NodeKind.UTF8 →
        n.kind ≠ NodeKind.UTF16 → n.byteSize = sizeForKind n.kind)
  ∧ (n.kind = NodeKind.Array → n.arrayLen = 0 → n.byteSize = 0)
  ∧ (n.kind = NodeKind.UTF8 → n.strLen = 0 → n.byteSize = 0)
  ∧ (n.kind = NodeKind.UTF16 → n.strLen = 0 → n.byteSize = 0)
  ∧ (n.kind ≠ NodeKind.Struct → n.kind ≠ NodeKind.Padding →
        nodeSizeForExport n = n.byteSize) := by
  obtain ⟨i, k, nm, p, off, alen, ek, stn, rid, slen, col⟩ := n
  cases k <;>
    simp_all [Node.byteSize, nodeSizeForExport, posClamp_sizeForKind]

/-- Witness for C6: the formula evaluated at a concrete Array node —
3 elements of UInt32 give 12 bytes. -/
theorem byteSize_formula_witness : wArrayNode.byteSize = 12 := by
  have h := (byteSize_follows_kind_formula wArrayNode).1 rfl
  simpa [wArrayNode, sizeForKind] using h

/-!  ### Claim C9 -/

/-- **C9**: the boundary predicate accepts a zero-length probe at every
address, on every source — including the empty source of size 0 and
addresses at or past the end. -/
theorem isReadable_zero_len_always (p : BufferProvider) (np : NullProvider)
    (addr : Nat) :
    BufferProvider.isReadable p addr 0 = true
  ∧ NullProvider.isReadable np addr 0 = true
  ∧ ∀ size, isReadableDefault size addr 0 = true := by
  refine ⟨?_, ?_, fun size => ?_⟩ <;>
    simp [BufferProvider.isReadable, NullProvider.isReadable,
      isReadableDefault]

/-!  ### Claim C3 -/

/-- **C3**: `read(addr, buf, len)` fails whenever `[addr, addr+len)` is
not fully inside `[0, size)`: on the buffer source every such non-empty
request returns false with the caller's buffer untouched, on the
empty/unavailable source every non-empty read fails likewise, and any
failed buffer read copies nothing into the caller's buffer. -/
theorem read_out_of_bounds_fails (p : BufferProvider) (np : NullProvider)
    (addr len : Nat) (buf : List Nat)
    (hlen : 0 < len) (hoob : p.size < addr + len) :
    BufferProvider.read p addr len buf = (false, buf)
  ∧ NullProvider.read np addr len buf = (false, buf)
  ∧ ∀ (a l : Nat) (b : List Nat),
      (BufferProvider.read p a l b).1 = false →
      (BufferProvider.read p a l b).2 = b := by
  refine ⟨?_, rfl, ?_⟩
  · have h1 : (len == 0) = false := beq_eq_false_iff_ne.mpr (by omega)
    have h2 : ¬ (addr + len ≤ p.size) := by omega
    simp [BufferProvider.read, BufferProvider.isReadable,
      isReadableDefault, h1, h2]
  · intro a l b hfail
    by_cases h : p.isReadable a l = true
    · simp [BufferProvider.read, h] at hfail
    · simp [BufferProvider.read, h]

/-- Witness for C3: a one-byte read at address 0 from the empty buffer
source fails and leaves the caller's buffer as it was. -/
theorem read_out_of_bounds_witness :
    BufferProvider.read ⟨[]⟩ 0 1 [255] = (false, [255])
  ∧ NullProvider.read ⟨⟩ 0 1 [255] = (false, [255]) :=
  ⟨(read_out_of_bounds_fails ⟨[]⟩ ⟨⟩ 0 1 [255] (by decide) (by decide)).1,
   (read_out_of_bounds_fails ⟨[]⟩ ⟨⟩ 0 1 [255] (by decide) (by decide)).2.1⟩

/-!  ### Claim C5 -/

/-- **C5**: when the underlying read fails, every in-place/typed helper
substitutes zero bytes for the whole requested span — `readBytes`
returns exactly `len` zero bytes and the typed readers return 0 — on
both the buffer source (failing bounds check) and the empty source
(every read fails). -/
theorem failed_read_zero_fill (p : BufferProvider) (np : NullProvider)
    (addr len : Nat)
    (hfail : BufferProvider.isReadable p addr len = false) :
    BufferProvider.readBytes p addr len = List.replicate len 0
  ∧ (BufferProvider.isReadable p addr 1 = false →
        BufferProvider.readU8 p addr = 0)
  ∧ (BufferProvider.isReadable p addr 2 = false →
        BufferProvider.readU16 p addr = 0)
  ∧ (BufferProvider.isReadable p addr 4 = false →
        BufferProvider.readU32 p addr = 0)
  ∧ (BufferProvider.isReadable p addr 8 = false →
        BufferProvider.readU64 p addr = 0)
  ∧ NullProvider.readBytes np addr len = List.replicate len 0
  ∧ NullProvider.readU8 np addr = 0
  ∧ NullProvider.readU16 np addr = 0
  ∧ NullProvider.readU32 np addr = 0
  ∧ NullProvider.readU64 np addr = 0 := by
  have hb : ∀ (l : Nat), BufferProvider.isReadable p addr l = false →
      BufferProvider.readBytes p addr l = List.replicate l 0 := by
    intro l hl
    simp [BufferProvider.readBytes, readBytesVia, BufferProvider.read, hl]
  refine ⟨hb len hfail, ?_, ?_, ?_, ?_, ?_, ?_, ?_, ?_, ?_⟩
  · intro h
    simp [BufferProvider.readU8, readU8Via, readBytesVia,
      BufferProvider.read, h, fromLE_replicate_zero, fromLE]
  · intro h
    simp [BufferProvider.readU16, readU16Via, readBytesVia,
      BufferProvider.read, h, fromLE_replicate_zero, fromLE]
  · intro h
    simp [BufferProvider.readU32, readU32Via, readBytesVia,
      BufferProvider.read, h, fromLE_replicate_zero, fromLE]
  · intro h
    simp [BufferProvider.readU64, readU64Via, readBytesVia,
      BufferProvider.read, h, fromLE_replicate_zero, fromLE]
  · simp [NullProvider.readBytes, readBytesVia, NullProvider.read]
  · simp [NullProvider.readU8, readU8Via, readBytesVia,
      NullProvider.read, fromLE_replicate_zero, fromLE]
  · simp [NullProvider.readU16, readU16Via, readBytesVia,
      NullProvider.read, fromLE_replicate_zero, fromLE]
  · simp [NullProvider.readU32, readU32Via, readBytesVia,
      NullProvider.read, fromLE_replicate_zero, fromLE]
  · simp [NullProvider.readU64, readU64Via, readBytesVia,
      NullProvider.read, fromLE_replicate_zero, fromLE]

/-- Witness for C5: a 4-byte read past the end of the empty buffer
source yields 4 zero bytes and a zero `readU32`. -/
theorem failed_read_zero_fill_witness :
    BufferProvider.readBytes ⟨[]⟩ 0 4 = List.replicate 4 0
  ∧ NullProvider.readU32 ⟨⟩ 0 = 0 :=
  ⟨(failed_read_zero_fill ⟨[]⟩ ⟨⟩ 0 4 (by decide)).1,
   (failed_read_zero_fill ⟨[]⟩ ⟨⟩ 0 4 (by decide)).2.2.2.2.2.2.2.2.1⟩

/-!  ### Splice algebra for `BufferProvider.write` -/

/-- The spliced buffer written by a successful `write` keeps its prefix
before `addr`. -/
theorem splice_take (d bytes : List Nat) (addr : Nat)
    (h : addr + bytes.length ≤ d.length) :
    (d.take addr ++ bytes ++ d.drop (addr + bytes.length)).take addr
      = d.take addr := by
  have hta : (d.take addr).length = addr := by
    simp [List.length_take]
    omega
  rw [List.append_assoc]
  rw [show (d.take addr ++ (bytes ++ d.drop (addr + bytes.length))).take addr
        = (d.take addr ++ (bytes ++ d.drop (addr + bytes.length))).take
            (d.take addr).length from by rw [hta]]
  exact List.take_left _ _

/-- The spliced buffer holds exactly the written span at `[addr,
addr+len)`. -/
theorem splice_slice (d bytes : List Nat) (addr : Nat)
    (h : addr + bytes.length ≤ d.length) :
    ((d.take addr ++ bytes ++ d.drop (addr + bytes.length)).drop addr).take
        bytes.length = bytes := by
  have hta : (d.take addr).length = addr := by
    simp [List.length_take]
    omega
  rw [List.append_assoc]
  rw [show (d.take addr ++ (bytes ++ d.drop (addr + bytes.length))).drop addr
        = (d.take addr ++ (bytes ++ d.drop (addr + bytes.length))).drop
            (d.take addr).length from by rw [hta]]
  rw [List.drop_left]
  rw [show (bytes ++ d.drop (addr + bytes.length)).take bytes.length
        = (bytes ++ d.drop (addr + bytes.length)).take bytes.length from rfl]
  exact List.take_left _ _

/-- The spliced buffer keeps its suffix from `addr + len` on. -/
theorem splice_drop (d bytes : List Nat) (addr : Nat)
    (h : addr + bytes.length ≤ d.length) :
    (d.take addr ++ bytes ++ d.drop (addr + bytes.length)).drop
        (addr + bytes.length) = d.drop (addr + bytes.length) := by
  have hlen : (d.take addr ++ bytes).length = addr + bytes.length := by
    simp [List.length_append, List.length_take]
    omega
  rw [show addr + bytes.length = (d.take addr ++ bytes).length from hlen.symm]
  exact List.drop_left _ _

/-- Splicing preserves the buffer's length. -/
theorem splice_length (d bytes : List Nat) (addr : Nat)
    (h : addr + bytes.length ≤ d.length) :
    (d.take addr ++ bytes ++ d.drop (addr + bytes.length)).length
      = d.length := by
  simp [List.length_append, List.length_take, List.length_drop]
  omega

/-!  ### Claim C4 -/

/-- **C4**: `write(addr, buf, len)` returns false (and changes nothing)
when the source is not writable or the range is out of bounds, and a
write never partially applies: on failure the backing store is exactly
the old one, on success the whole span lands while everything outside
`[addr, addr+len)` and the total size are unchanged. -/
theorem write_refused_or_atomic (p : BufferProvider) (np : NullProvider)
    (addr : Nat) (bytes : List Nat) :
    (0 < bytes.length → p.size < addr + bytes.length →
        BufferProvider.write p addr bytes = (false, p))
  ∧ NullProvider.write np addr bytes = (false, np)
  ∧ ((BufferProvider.write p addr bytes).1 = false →
        (BufferProvider.write p addr bytes).2 = p)
  ∧ ((BufferProvider.write p addr bytes).1 = true →
        ((BufferProvider.write p addr bytes).2.data.drop addr).take
            bytes.length = bytes
      ∧ (BufferProvider.write p addr bytes).2.data.take addr
          = p.data.take addr
      ∧ (BufferProvider.write p addr bytes).2.data.drop
            (addr + bytes.length) = p.data.drop (addr + bytes.length)
      ∧ (BufferProvider.write p addr bytes).2.size = p.size) := by
  refine ⟨?_, rfl, ?_, ?_⟩
  · intro hlen hoob
    have h1 : (bytes.length == 0) = false := beq_eq_false_iff_ne.mpr (by omega)
    have h2 : ¬ (addr + bytes.length ≤ p.size) := by omega
    simp [BufferProvider.write, BufferProvider.isReadable,
      isReadableDefault, h1, h2]
  · intro hfail
    by_cases h : p.isReadable addr bytes.length = true
    · simp [BufferProvider.write, h] at hfail
    · simp [BufferProvider.write, h]
  · intro hok
    have h : p.isReadable addr bytes.length = true := by
      by_cases h : p.isReadable addr bytes.length = true
      · exact h
      · simp [BufferProvider.write, h] at hok
    have hdata : (BufferProvider.write p addr bytes).2.data
        = p.data.take addr ++ bytes ++ p.data.drop (addr + bytes.length) := by
      simp [BufferProvider.write, h]
    have hcases : bytes = [] ∨ addr + bytes.length ≤ p.size := by
      simpa [BufferProvider.isReadable, isReadableDefault] using h
    rcases hcases with hzero | hle
    · -- zero-length write: the splice is the identity
      subst hzero
      have hid : (BufferProvider.write p addr []).2.data = p.data := by
        rw [hdata]
        simp [List.take_append_drop]
      refine ⟨?_, ?_, ?_, ?_⟩ <;>
        simp [hid, BufferProvider.size]
    · have hle' : addr + bytes.length ≤ p.data.length := hle
      refine ⟨?_, ?_, ?_, ?_⟩
      · rw [hdata]
        exact splice_slice _ _ _ hle'
      · rw [hdata]
        exact splice_take _ _ _ hle'
      · rw [hdata]
        exact splice_drop _ _ _ hle'
      · show (BufferProvider.write p addr bytes).2.data.length = p.data.length
        rw [hdata]
        exact splice_length _ _ _ hle'

/-- Witness for C4: an oversized write into a 4-byte buffer is refused
and leaves the buffer unchanged; a successful 2-byte write lands both
bytes. -/
theorem write_refused_witness :
    BufferProvider.write ⟨[0, 0, 0, 0]⟩ 0 [1, 2, 3, 4, 5]
      = (false, ⟨[0, 0, 0, 0]⟩)
  ∧ ((BufferProvider.write ⟨[0, 0, 0, 0]⟩ 1 [9, 8]).2.data.drop 1).take 2
      = [9, 8] :=
  ⟨(write_refused_or_atomic ⟨[0, 0, 0, 0]⟩ ⟨⟩ 0 [1, 2, 3, 4, 5]).1
      (by decide) (by decide),
   (write_refused_or_atomic ⟨[0, 0, 0, 0]⟩ ⟨⟩ 1 [9, 8]).2.2.2
      (by decide) |>.1⟩

/-!  ### Claim C7 -/

/-- `find?` returns the element when it is a member satisfying the
predicate and is the only satisfier. -/
theorem find?_eq_some_of_unique {α : Type} {p : α → Bool} {l : List α}
    {a : α} (hmem : a ∈ l) (hp : p a = true)
    (huniq : ∀ b ∈ l, p b = true → b = a) :
    l.find? p = some a := by
  induction l with
  | nil => cases hmem
  | cons x l ih =>
    by_cases hx : p x = true
    · have hxa : x = a := huniq x (List.mem_cons_self x l) hx
      subst hxa
      simp [List.find?, hx]
    · have hmem' : a ∈ l := by
        rcases List.mem_cons.mp hmem with rfl | hmem'
        · exact absurd hp hx
        · exact hmem'
      have hx' : p x = false := Bool.eq_false_iff.mpr hx
      simp only [List.find?, hx']
      exact ih hmem' fun b hb hpb => huniq b (List.mem_cons_of_mem x hb) hpb

/-- **C7**: `resolveStructName(tree, refId)` returns the referenced
node's `structTypeName` when it is non-empty, otherwise that node's
`name`, and the empty string when no node of the tree has the id —
stated for a tree with unique node ids (the spec §3 invariant). -/
theorem resolveStructName_spec (t : NodeTree) (refId : Nat)
    (hnodup : (t.nodes.map Node.id).Nodup) :
    ((∀ n ∈ t.nodes, n.id ≠ refId) → resolveStructName t refId = "")
  ∧ (∀ n ∈ t.nodes, n.id = refId →
        resolveStructName t refId =
          if n.structTypeName ≠ "" then n.structTypeName else n.name) := by
  constructor
  · intro hnone
    have hfind : t.nodes.find? (fun n => n.id == refId) = none := by
      rw [List.find?_eq_none]
      intro n hn
      simp only [beq_iff_eq]
      exact hnone n hn
    simp [resolveStructName, hfind]
  · intro n hmem hid
    have hfind : t.nodes.find? (fun m => m.id == refId) = some n := by
      refine find?_eq_some_of_unique hmem (by simp [hid]) ?_
      intro b hb hpb
      exact List.inj_on_of_nodup_map hnodup hb hmem
        (by rw [hid]; exact beq_iff_eq.mp hpb)
    simp [resolveStructName, hfind]

/-- Witness for C7: in the concrete two-node tree, id 1 resolves to its
struct type name and id 2 falls back to its display name. -/
theorem resolveStructName_witness :
    resolveStructName wResolveTree 1 = "Target"
  ∧ resolveStructName wResolveTree 2 = "plain" := by
  have h1 := (resolveStructName_spec wResolveTree 1 (by decide)).2
    ⟨1, NodeKind.Struct, "inst", 0, 0, 0, NodeKind.Hex8, "Target", 0, 0, false⟩
    (by simp [wResolveTree]) rfl
  have h2 := (resolveStructName_spec wResolveTree 2 (by decide)).2
    ⟨2, NodeKind.Int32, "plain", 1, 0, 0, NodeKind.Hex8, "", 0, 0, false⟩
    (by simp [wResolveTree]) rfl
  constructor
  · rw [h1]
    decide
  · rw [h2]
    decide

/-!  ### Claim C10 -/

/-- **C10**: the export returns false with a non-empty error message
exactly when the tree has no nodes, the file cannot be opened, or there
is no root-level Struct; and in the no-root-Struct case the file has
already been created and fully written when the failure is reported. -/
theorem exportReclassXml_failure_conditions (t : NodeTree)
    (filePath : String) (canOpen : Bool) :
    ((exportReclassXml t filePath canOpen).ok = false ↔
      (t.nodes.isEmpty = true ∨ canOpen = false ∨ countRootStructs t = 0))
  ∧ ((exportReclassXml t filePath canOpen).ok = false →
      (exportReclassXml t filePath canOpen).errorMsg ≠ "")
  ∧ (t.nodes.isEmpty = false → canOpen = true → countRootStructs t = 0 →
      (exportReclassXml t filePath canOpen).fileWritten = true
    ∧ (exportReclassXml t filePath canOpen).ok = false) := by
  have hmsg : ("Cannot open file for writing: " ++ filePath) ≠ "" := by
    intro hcontra
    have hlen := congrArg String.length hcontra
    simp [String.length_append] at hlen
    exact absurd hlen.1 (by decide)
  by_cases h1 : t.nodes.isEmpty = true
  · refine ⟨by simp [exportReclassXml, h1], ?_, ?_⟩
    · intro _
      simp [exportReclassXml, h1]
    · intro hne
      rw [h1] at hne
      cases hne
  · have h1' : t.nodes.isEmpty = false := Bool.eq_false_iff.mpr h1
    by_cases h2 : canOpen = true
    · by_cases h3 : countRootStructs t = 0
      · refine ⟨?_, ?_, ?_⟩
        · simp [exportReclassXml, h1', h2, h3]
        · intro _
          simp [exportReclassXml, h1', h2, h3]
        · intro _ _ _
          simp [exportReclassXml, h1', h2, h3]
      · refine ⟨?_, ?_, ?_⟩
        · simp [exportReclassXml, h1', h2, h3]
        · intro hfalse
          simp [exportReclassXml, h1', h2, h3] at hfalse
        · intro _ _ hc
          exact absurd hc h3
    · have h2' : canOpen = false := Bool.eq_false_iff.mpr h2
      refine ⟨?_, ?_, ?_⟩
      · simp [exportReclassXml, h1', h2']
      · intro _
        simpa [exportReclassXml, h1', h2'] using hmsg
      · intro _ hopen
        rw [h2'] at hopen
        cases hopen

/-- Witness for C10: exporting a tree whose only root is not a Struct
fails, yet the file was created and fully written first. -/
theorem exportReclassXml_failure_witness :
    (exportReclassXml wExportTree "out.xml" true).fileWritten = true
  ∧ (exportReclassXml wExportTree "out.xml" true).ok = false :=
  (exportReclassXml_failure_conditions wExportTree "out.xml" true).2.2
    (by decide) rfl (by decide)

/-!  ### Claim C8 -/

/-- Inserting an index permutes, never drops or duplicates. -/
theorem insertByOff_perm (t : NodeTree) (i : Nat) (l : List Nat) :
    (t.insertByOff i l).Perm (i :: l) := by
  induction l with
  | nil => simp [NodeTree.insertByOff]
  | cons j l ih =>
    rw [NodeTree.insertByOff]
    by_cases h : t.offAt i ≤ t.offAt j
    · rw [if_pos h]
    · rw [if_neg h]
      exact ((ih.cons j).trans (List.Perm.swap i j l))

/-- The stable offset sort is a permutation of its input. -/
theorem sortByOff_perm (t : NodeTree) (l : List Nat) :
    (t.sortByOff l).Perm l := by
  induction l with
  | nil => simp [NodeTree.sortByOff]
  | cons i l ih =>
    rw [NodeTree.sortByOff]
    exact (insertByOff_perm t i (t.sortByOff l)).trans (ih.cons i)

/-- The combined order the stable sort establishes: strictly smaller
offset, or equal offsets in original index order. -/
def offLex (t : NodeTree) (i j : Nat) : Prop :=
  t.offAt i < t.offAt j ∨ (t.offAt i = t.offAt j ∧ i < j)

/-- `offLex` entails non-strict offset order. -/
theorem offLex_le {t : NodeTree} {i j : Nat} (h : offLex t i j) :
    t.offAt i ≤ t.offAt j := by
  rcases h with h | ⟨h, _⟩
  · exact le_of_lt h
  · exact le_of_eq h

/-- Inserting an index that originally precedes every element of an
`offLex`-sorted list keeps the list `offLex`-sorted. -/
theorem insertByOff_pairwise (t : NodeTree) (i : Nat) (l : List Nat)
    (hl : List.Pairwise (offLex t) l) (hgt : ∀ j ∈ l, i < j) :
    List.Pairwise (offLex t) (t.insertByOff i l) := by
  induction l with
  | nil => simp [NodeTree.insertByOff]
  | cons j l ih =>
    rw [NodeTree.insertByOff]
    rcases List.pairwise_cons.mp hl with ⟨hjl, hl'⟩
    by_cases h : t.offAt i ≤ t.offAt j
    · rw [if_pos h]
      refine List.Pairwise.cons ?_ hl
      intro k hk
      rcases List.mem_cons.mp hk with rfl | hk
      · rcases lt_or_eq_of_le h with h' | h'
        · exact Or.inl h'
        · exact Or.inr ⟨h', hgt k (List.mem_cons_self k l)⟩
      · have hik : t.offAt i ≤ t.offAt k := le_trans h (offLex_le (hjl k hk))
        rcases lt_or_eq_of_le hik with h' | h'
        · exact Or.inl h'
        · exact Or.inr ⟨h', hgt k (List.mem_cons_of_mem j hk)⟩
    · rw [if_neg h]
      refine List.Pairwise.cons ?_
        (ih hl' fun k hk => hgt k (List.mem_cons_of_mem j hk))
      intro k hk
      have hk' : k = i ∨ k ∈ l := by
        simpa using (insertByOff_perm t i l).mem_iff.mp hk
      rcases hk' with rfl | hk'
      · exact Or.inl (lt_of_not_le h)
      · exact hjl k hk'

/-- Sorting a strictly increasing index list by offset yields an
`offLex`-sorted list: ascending offsets with ties in original order. -/
theorem sortByOff_pairwise (t : NodeTree) (l : List Nat)
    (hl : List.Pairwise (· < ·) l) :
    List.Pairwise (offLex t) (t.sortByOff l) := by
  induction l with
  | nil => simp [NodeTree.sortByOff]
  | cons i l ih =>
    rw [NodeTree.sortByOff]
    rcases List.pairwise_cons.mp hl with ⟨hil, hl'⟩
    refine insertByOff_pairwise t i (t.sortByOff l) (ih hl') ?_
    intro j hj
    exact hil j ((sortByOff_perm t l).mem_iff.mp hj)

/-- **C8**: enumerating a parent's direct children yields them ordered
by ascending offset with ties broken by insertion order (the `offLex`
pairwise property over the child indices), and as a permutation of the
children in storage order — nothing is dropped, duplicated, or
destructively re-sorted in the stored collection. -/
theorem childrenOf_sorted_stable (t : NodeTree) (pid : Nat) :
    List.Pairwise (offLex t) (t.childrenOf pid)
  ∧ (t.childrenOf pid).Perm (t.childIdxs pid) := by
  constructor
  · refine sortByOff_pairwise t _ ?_
    exact List.Pairwise.filter _ (List.pairwise_lt_range t.nodes.length)
  · exact sortByOff_perm t _

/-!  ### Claim C2 -/

/-- Re-splicing the original middle span back into a spliced buffer
reconstructs the original buffer. -/
theorem splice_id (d : List Nat) (addr len : Nat) :
    d.take addr ++ (d.drop addr).take len ++ d.drop (addr + len) = d := by
  rw [List.append_assoc]
  rw [show d.drop (addr + len) = (d.drop addr).drop len from
    (List.drop_drop _ _ _).symm]
  rw [List.take_append_drop, List.take_append_drop]

/-- Writing a span and then writing back the bytes it overwrote restores
the byte source exactly (stated with the saved span abstracted, as a
command captures it). -/
theorem write_restore (oldB : List Nat) (p : BufferProvider) (addr : Nat)
    (newBytes : List Nat) (h : addr + newBytes.length ≤ p.size)
    (hold : oldB = (p.data.drop addr).take newBytes.length) :
    ((p.write addr newBytes).2.write addr oldB).2 = p := by
  obtain ⟨d⟩ := p
  have hsize : addr + newBytes.length ≤ d.length := h
  have holdlen : oldB.length = newBytes.length := by
    rw [hold]
    simp [List.length_take, List.length_drop]
    omega
  have hr1 : (BufferProvider.mk d).isReadable addr newBytes.length = true := by
    simp [BufferProvider.isReadable, isReadableDefault, BufferProvider.size]
    omega
  have hsplice : ((BufferProvider.mk d).write addr newBytes).2
      = ⟨d.take addr ++ newBytes ++ d.drop (addr + newBytes.length)⟩ := by
    simp [BufferProvider.write, hr1]
  rw [hsplice]
  have hlen1 : (d.take addr ++ newBytes ++ d.drop
      (addr + newBytes.length)).length = d.length :=
    splice_length d newBytes addr hsize
  have h2 : addr + oldB.length ≤ (d.take addr ++ newBytes ++ d.drop
      (addr + newBytes.length)).length := by
    rw [hlen1, holdlen]
    omega
  have hr2 : (BufferProvider.mk (d.take addr ++ newBytes ++ d.drop
      (addr + newBytes.length))).isReadable addr oldB.length = true := by
    simp [BufferProvider.isReadable, isReadableDefault, BufferProvider.size]
    refine Or.inr ?_
    omega
  have hsplice2 : ((BufferProvider.mk (d.take addr ++ newBytes ++ d.drop
      (addr + newBytes.length))).write addr oldB).2
      = ⟨(d.take addr ++ newBytes ++ d.drop (addr + newBytes.length)).take addr
          ++ oldB
          ++ (d.take addr ++ newBytes ++ d.drop
              (addr + newBytes.length)).drop (addr + oldB.length)⟩ := by
    simp only [BufferProvider.write]
    rw [hr2]
    simp
  rw [hsplice2]
  simp only [BufferProvider.mk.injEq]
  rw [holdlen, splice_take d newBytes addr hsize,
    splice_drop d newBytes addr hsize, hold]
  rw [splice_id]

/-- Modifying the element at an index and then modifying it back with a
function that restores the original element is the identity. -/
theorem modifyAt_cancel (f g : Node → Node) (l : List Node) (i : Nat)
    (a : Node) (hget : l.get? i = some a) (hcancel : g (f a) = a) :
    modifyAt g (modifyAt f l i) i = l := by
  induction l generalizing i with
  | nil => exact Option.noConfusion hget
  | cons b l ih =>
    cases i with
    | zero =>
      have hba : some b = some a := hget
      injection hba with hba
      subst hba
      show g (f b) :: l = b :: l
      rw [hcancel]
    | succ i =>
      have hget' : l.get? i = some a := hget
      show b :: modifyAt g (modifyAt f l i) i = b :: l
      rw [ih i hget']

/-- Modifying twice at the same index with mutually inverse functions is
the identity, at any index. -/
theorem modifyAt_inverse (f g : Node → Node) (hfg : ∀ a, g (f a) = a)
    (l : List Node) (i : Nat) :
    modifyAt g (modifyAt f l i) i = l := by
  induction l generalizing i with
  | nil => rfl
  | cons b l ih =>
    cases i with
    | zero =>
      show g (f b) :: l = b :: l
      rw [hfg]
    | succ i =>
      show b :: modifyAt g (modifyAt f l i) i = b :: l
      rw [ih i]

/-- Erasing by a predicate that only the appended element satisfies
removes exactly that element. -/
theorem eraseP_append_singleton (p : Node → Bool) (l : List Node) (a : Node)
    (hnone : ∀ n ∈ l, p n = false) (hp : p a = true) :
    List.eraseP p (l ++ [a]) = l := by
  induction l with
  | nil => simp [List.eraseP, hp]
  | cons b l ih =>
    have hb : p b = false := hnone b (List.mem_cons_self b l)
    simp only [List.cons_append, List.eraseP_cons, hb, cond_false]
    rw [ih fun n hn => hnone n (List.mem_cons_of_mem b hn)]

/-- Re-inserting a removed element at its original index restores the
list. -/
theorem insertAt_eraseIdx (l : List Node) (i : Nat) (a : Node)
    (hget : l.get? i = some a) :
    insertAt a (l.eraseIdx i) i = l := by
  induction l generalizing i with
  | nil => exact Option.noConfusion hget
  | cons b l ih =>
    cases i with
    | zero =>
      have hba : some b = some a := hget
      injection hba with hba
      subst hba
      simp [insertAt, List.eraseIdx]
    | succ i =>
      have hget' : l.get? i = some a := hget
      have hstep : insertAt a ((b :: l).eraseIdx (i + 1)) (i + 1)
          = b :: insertAt a (l.eraseIdx i) i := by
        simp [insertAt, List.eraseIdx]
      rw [hstep, ih i hget']

/-- **C2**: for every command type — value byte-write, rename,
change-kind, insert, remove, toggle-collapse — applying the command and
undoing it restores the prior document state exactly (byte-for-byte for
the value command, structurally identical for the others), and applying,
undoing, then redoing reproduces the post-apply state exactly. -/
theorem command_undo_redo_exact (c : Cmd) (s : DocState) (h : CmdOk s c) :
    undoCmd c (applyCmd c s) = s
  ∧ applyCmd c (undoCmd c (applyCmd c s)) = applyCmd c s := by
  have hmain : undoCmd c (applyCmd c s) = s := by
    obtain ⟨⟨base, nodes, nid⟩, prov⟩ := s
    cases c with
    | SetBytes addr oldB newB =>
      obtain ⟨hle, hold⟩ := h
      simp only [applyCmd, undoCmd]
      rw [write_restore oldB prov addr newB hle hold]
    | Rename idx oldN newN =>
      obtain ⟨n, hget, hname⟩ := h
      have hmod := modifyAt_cancel (fun m => { m with name := newN })
        (fun m => { m with name := oldN }) nodes idx n hget (by
          obtain ⟨n1, n2, n3, n4, n5, n6, n7, n8, n9, n10, n11⟩ := n
          simp only at hname
          cases hname
          rfl)
      simp only [applyCmd, undoCmd]
      rw [hmod]
    | ChangeKind idx oldK newK =>
      obtain ⟨n, hget, hkind⟩ := h
      have hmod := modifyAt_cancel (fun m => { m with kind := newK })
        (fun m => { m with kind := oldK }) nodes idx n hget (by
          obtain ⟨n1, n2, n3, n4, n5, n6, n7, n8, n9, n10, n11⟩ := n
          simp only at hkind
          cases hkind
          rfl)
      simp only [applyCmd, undoCmd]
      rw [hmod]
    | Insert node =>
      simp only [applyCmd, undoCmd]
      rw [eraseP_append_singleton _ nodes node
        (fun n hn => beq_eq_false_iff_ne.mpr (h n hn)) (by simp)]
    | Remove idx node =>
      simp only [applyCmd, undoCmd]
      rw [insertAt_eraseIdx nodes idx node h]
    | ToggleCollapse idx =>
      simp only [applyCmd, undoCmd]
      rw [modifyAt_inverse _ _ (fun a => by
        obtain ⟨a1, a2, a3, a4, a5, a6, a7, a8, a9, a10, a11⟩ := a
        simp) nodes idx]
  exact ⟨hmain, by rw [hmain]⟩

/-- Witness for C2: renaming the concrete document's field and undoing
restores the document exactly, and redo reproduces the renamed state. -/
theorem command_undo_redo_witness :
    undoCmd wRenameCmd (applyCmd wRenameCmd wDocState) = wDocState
  ∧ applyCmd wRenameCmd (undoCmd wRenameCmd (applyCmd wRenameCmd wDocState))
      = applyCmd wRenameCmd wDocState :=
  command_undo_redo_exact wRenameCmd wDocState ⟨wFieldNode, rfl, rfl⟩

/-!  ### Claim C1 -/

/-- A hit of the external search names a member tree and a root-level
Struct found in it. -/
theorem findExternalRoot_spec (exts : List NodeTree) (name : String)
    (e : NodeTree) (r : Node)
    (h : findExternalRoot exts name = some (e, r)) :
    e ∈ exts ∧ findRootStructByName e name = some r := by
  induction exts with
  | nil => exact Option.noConfusion h
  | cons t rest ih =>
    cases hfind : findRootStructByName t name with
    | some r' =>
      have h' : some (t, r') = some (e, r) := by
        rw [← h]
        simp [findExternalRoot, hfind]
      have hpair : (t, r') = (e, r) := by injection h'
      have ht : t = e := congrArg Prod.fst hpair
      have hr : r' = r := congrArg Prod.snd hpair
      subst ht
      subst hr
      exact ⟨List.mem_cons_self t rest, hfind⟩
    | none =>
      have h' : findExternalRoot rest name = some (e, r) := by
        rw [← h]
        simp [findExternalRoot, hfind]
      obtain ⟨hmem, hfound⟩ := ih h'
      exact ⟨List.mem_cons_of_mem t hmem, hfound⟩

/-- One closure step keeps the root at the head, and keeps every other
member's parent id inside the member id set. -/
theorem subtreeStep_invariant (nodes : List Node) (r : Node)
    (rest : List Node)
    (h : ∀ m ∈ rest, m.parentId ∈ (r :: rest).map Node.id) :
    ∃ rest', subtreeStep nodes (r :: rest) = r :: rest'
      ∧ ∀ m ∈ rest', m.parentId ∈ (r :: rest').map Node.id := by
  refine ⟨rest ++ nodes.filter (fun n =>
      !((r :: rest).map Node.id).contains n.id
        && ((r :: rest).map Node.id).contains n.parentId), ?_, ?_⟩
  · simp [subtreeStep]
  · intro m hm
    have hsub : ∀ x, x ∈ (r :: rest).map Node.id →
        x ∈ (r :: (rest ++ nodes.filter (fun n =>
          !((r :: rest).map Node.id).contains n.id
            && ((r :: rest).map Node.id).contains n.parentId))).map
            Node.id := by
      intro x hx
      simp only [List.map_cons, List.map_append, List.mem_cons,
        List.mem_append] at hx ⊢
      rcases hx with hx | hx
      · exact Or.inl hx
      · exact Or.inr (Or.inl hx)
    rcases List.mem_append.mp hm with hm' | hm'
    · exact hsub _ (h m hm')
    · have hp := (List.mem_filter.mp hm').2
      simp only [Bool.and_eq_true] at hp
      exact hsub _ (by simpa using hp.2)

/-- Iterating the closure step preserves the head root and the parent
closure of the remaining members. -/
theorem subtreeCloseAux_invariant (nodes : List Node) (fuel : Nat) :
    ∀ (r : Node) (rest : List Node),
      (∀ m ∈ rest, m.parentId ∈ (r :: rest).map Node.id) →
      ∃ rest', subtreeCloseAux nodes fuel (r :: rest) = r :: rest'
        ∧ ∀ m ∈ rest', m.parentId ∈ (r :: rest').map Node.id := by
  induction fuel with
  | zero =>
    intro r rest h
    exact ⟨rest, rfl, h⟩
  | succ fuel ih =>
    intro r rest h
    obtain ⟨rest1, hstep, hinv⟩ := subtreeStep_invariant nodes r rest h
    obtain ⟨rest', heq, hinv'⟩ := ih r rest1 hinv
    refine ⟨rest', ?_, hinv'⟩
    calc subtreeCloseAux nodes (fuel + 1) (r :: rest)
        = subtreeCloseAux nodes fuel (subtreeStep nodes (r :: rest)) := rfl
      _ = subtreeCloseAux nodes fuel (r :: rest1) := by rw [hstep]
      _ = r :: rest' := heq

/-- The closure only ever contains initial members or tree nodes. -/
theorem subtreeCloseAux_subset (nodes : List Node) (fuel : Nat) :
    ∀ (members : List Node), ∀ m ∈ subtreeCloseAux nodes fuel members,
      m ∈ members ∨ m ∈ nodes := by
  induction fuel with
  | zero =>
    intro members m hm
    exact Or.inl hm
  | succ fuel ih =>
    intro members m hm
    have hm' : m ∈ subtreeStep nodes members ∨ m ∈ nodes :=
      ih (subtreeStep nodes members) m hm
    rcases hm' with hm' | hm'
    · simp only [subtreeStep] at hm'
      rcases List.mem_append.mp hm' with hm'' | hm''
      · exact Or.inl hm''
      · exact Or.inr (List.mem_filter.mp hm'').1
    · exact Or.inr hm'

/-- A present key has an index in the id list. -/
theorem findIdx?_some_of_mem (l : List Nat) (x : Nat) (h : x ∈ l) :
    ∃ j, l.findIdx? (fun y => y == x) = some j := by
  cases hfi : l.findIdx? (fun y => y == x) with
  | some j => exact ⟨j, rfl⟩
  | none =>
    have := List.findIdx?_eq_none_iff.mp hfi x h
    simp at this

/-- **C1**: resolving a struct target by name searches the local tree's
root-level Structs by `structTypeName` first and, when found, returns
the existing node's id with the local tree unchanged (no node is
created); and the whole find-or-create operation is idempotent — a
second run returns the same tree and id — so importing a same-named
external root twice leaves exactly one local root Struct with that
type name. -/
theorem findOrCreate_dedup_and_idempotent
    (localTree : NodeTree) (exts : List NodeTree) (name : String)
    (hbase : 1 ≤ localTree.nextId)
    (hwf : ∀ e ∈ exts, ∀ n ∈ e.nodes, n.id ≠ 0) :
    (∀ n, findRootStructByName localTree name = some n →
        findOrCreateStructByName localTree exts name = (localTree, n.id))
  ∧ findOrCreateStructByName
      (findOrCreateStructByName localTree exts name).1 exts name
      = findOrCreateStructByName localTree exts name
  ∧ (findRootStructByName localTree name = none →
      findExternalRoot exts name ≠ none →
      countRootStructsNamed
        (findOrCreateStructByName
          (findOrCreateStructByName localTree exts name).1 exts name).1
        name = 1) := by
  have hfirst : ∀ n, findRootStructByName localTree name = some n →
      findOrCreateStructByName localTree exts name = (localTree, n.id) := by
    intro n hn
    simp [findOrCreateStructByName, hn]
  have hkey : findOrCreateStructByName
      (findOrCreateStructByName localTree exts name).1 exts name
      = findOrCreateStructByName localTree exts name
    ∧ (findRootStructByName localTree name = none →
        findExternalRoot exts name ≠ none →
        countRootStructsNamed
          (findOrCreateStructByName
            (findOrCreateStructByName localTree exts name).1 exts name).1
          name = 1) := by
    cases hlocal : findRootStructByName localTree name with
    | some n =>
      constructor
      · rw [hfirst n hlocal]
        exact hfirst n hlocal
      · intro hnone
        exact Option.noConfusion hnone
    | none =>
      cases hext : findExternalRoot exts name with
      | none =>
        have hres : findOrCreateStructByName localTree exts name
            = (localTree, 0) := by
          simp [findOrCreateStructByName, hlocal, hext]
        constructor
        · rw [hres]
          simp [findOrCreateStructByName, hlocal, hext]
        · intro _ hsome
          exact absurd rfl hsome
      | some pr =>
        obtain ⟨ext, root⟩ := pr
        obtain ⟨hextmem, hfound⟩ :=
          findExternalRoot_spec exts name ext root hext
        have hfound' : ext.nodes.find? (rootStructPred name) = some root :=
          hfound
        have hpred : rootStructPred name root = true :=
          List.find?_some hfound'
        have hrootmem : root ∈ ext.nodes := List.mem_of_find?_eq_some hfound'
        obtain ⟨rest, hmembers, hclosed⟩ :=
          subtreeCloseAux_invariant ext.nodes ext.nodes.length root []
            (by intro m hm; exact absurd hm (List.not_mem_nil m))
        have hmembers' : subtreeMembers ext root = root :: rest := hmembers
        have hsubset : ∀ m ∈ root :: rest, m ∈ ext.nodes := by
          intro m hm
          rw [← hmembers'] at hm
          rcases subtreeCloseAux_subset ext.nodes ext.nodes.length [root]
            m hm with h | h
          · have hmr : m = root := List.mem_singleton.mp h
            rw [hmr]
            exact hrootmem
          · exact h
        have hids : ∀ x ∈ (root :: rest).map Node.id, x ≠ 0 := by
          intro x hx
          obtain ⟨m, hm, rfl⟩ := List.mem_map.mp hx
          exact hwf ext hextmem m (hsubset m hm)
        have hpred' : (root.parentId = 0 ∧ root.kind = NodeKind.Struct)
            ∧ root.structTypeName = name := by
          simpa [rootStructPred] using hpred
        obtain ⟨⟨hp0, hpk⟩, hpn⟩ := hpred'
        have hzero : remapId ((root :: rest).map Node.id) localTree.nextId 0
            = 0 := by
          have hnone : ((root :: rest).map Node.id).findIdx?
              (fun y => y == 0) = none :=
            List.findIdx?_eq_none_iff.mpr
              (fun x hx => beq_eq_false_iff_ne.mpr (hids x hx))
          unfold remapId
          rw [hnone]
        have hzero' : remapId (root.id :: rest.map Node.id)
            localTree.nextId 0 = 0 := hzero
        have hcopyroot : rootStructPred name
            (remapNode ((root :: rest).map Node.id) localTree.nextId root)
            = true := by
          simp [rootStructPred, remapNode, hp0, hzero, hzero', hpk, hpn]
        have hrootid : remapId ((root :: rest).map Node.id) localTree.nextId
            root.id = localTree.nextId := by
          have hidx : ((root :: rest).map Node.id).findIdx?
              (fun y => y == root.id) = some 0 := by
            rw [List.map_cons]
            simp [List.findIdx?_cons]
          unfold remapId
          rw [hidx]
          simp
        have hrestpred : ∀ m ∈ rest, rootStructPred name
            (remapNode ((root :: rest).map Node.id) localTree.nextId m)
            = false := by
          intro m hm
          obtain ⟨j, hj⟩ := findIdx?_some_of_mem ((root :: rest).map Node.id)
            m.parentId (hclosed m hm)
          have hparent : (remapNode ((root :: rest).map Node.id)
              localTree.nextId m).parentId = localTree.nextId + j := by
            simp only [remapNode]
            unfold remapId
            rw [hj]
          refine Bool.eq_false_iff.mpr ?_
          intro hcontra
          simp only [rootStructPred, Bool.and_eq_true] at hcontra
          have h0 : (remapNode ((root :: rest).map Node.id)
              localTree.nextId m).parentId = 0 := by
            have := hcontra.1.1
            simpa using this
          rw [hparent] at h0
          omega
        have hres1 : findOrCreateStructByName localTree exts name
            = importRootStruct localTree ext root := by
          simp [findOrCreateStructByName, hlocal, hext]
        have hsnd : (importRootStruct localTree ext root).2
            = localTree.nextId := by
          simp only [importRootStruct, hmembers']
          exact hrootid
        have hnodes : (importRootStruct localTree ext root).1.nodes
            = localTree.nodes ++ (root :: rest).map
                (remapNode ((root :: rest).map Node.id)
                  localTree.nextId) := by
          simp only [importRootStruct, hmembers']
        have hlocal' : localTree.nodes.find? (rootStructPred name)
            = none := hlocal
        have hfr2 : findRootStructByName
            (importRootStruct localTree ext root).1 name
            = some (remapNode ((root :: rest).map Node.id)
                localTree.nextId root) := by
          show (importRootStruct localTree ext root).1.nodes.find?
            (rootStructPred name) = _
          rw [hnodes, List.find?_append, hlocal', Option.none_or,
            List.map_cons]
          exact List.find?_cons_of_pos _ hcopyroot
        have hcopyrootid : (remapNode ((root :: rest).map Node.id)
            localTree.nextId root).id = localTree.nextId := by
          simp only [remapNode]
          exact hrootid
        have hcopyrootid' : (remapNode (root.id :: rest.map Node.id)
            localTree.nextId root).id = localTree.nextId := hcopyrootid
        have hres2 : findOrCreateStructByName
            (importRootStruct localTree ext root).1 exts name
            = importRootStruct localTree ext root := by
          refine Prod.ext ?_ ?_
          · simp [findOrCreateStructByName, hfr2]
          · simp [findOrCreateStructByName, hfr2, hcopyrootid,
              hcopyrootid', hsnd]
        have hfilterlocal : localTree.nodes.filter (rootStructPred name)
            = [] :=
          List.filter_eq_nil_iff.mpr
            (fun nd hnd => List.find?_eq_none.mp hlocal' nd hnd)
        have hfilterrest : ((rest.map (remapNode
            ((root :: rest).map Node.id) localTree.nextId))).filter
            (rootStructPred name) = [] :=
          List.filter_eq_nil_iff.mpr (by
            intro x hx
            obtain ⟨m, hm, rfl⟩ := List.mem_map.mp hx
            rw [hrestpred m hm]
            simp)
        have hcount : countRootStructsNamed
            (importRootStruct localTree ext root).1 name = 1 := by
          show ((importRootStruct localTree ext root).1.nodes.filter
            (rootStructPred name)).length = 1
          rw [hnodes, List.filter_append, hfilterlocal, List.map_cons,
            List.filter_cons_of_pos hcopyroot, hfilterrest]
          rfl
        constructor
        · rw [hres1]
          exact hres2
        · intro _ _
          rw [hres1, hres2]
          exact hcount
  exact ⟨hfirst, hkey.1, hkey.2⟩

/-- Witness for C1: on the concrete trees, looking up "Main" (already
local) returns its id 1 with the tree unchanged, and importing "Beta"
from the external tree twice leaves exactly one "Beta" root Struct. -/
theorem findOrCreate_dedup_witness :
    findOrCreateStructByName wLocalTree [wExtTree] "Main" = (wLocalTree, 1)
  ∧ countRootStructsNamed
      (findOrCreateStructByName
        (findOrCreateStructByName wLocalTree [wExtTree] "Beta").1
        [wExtTree] "Beta").1 "Beta" = 1 := by
  constructor
  · exact (findOrCreate_dedup_and_idempotent wLocalTree [wExtTree] "Main"
      (by decide) (by decide)).1 wMainRoot (by decide)
  · exact (findOrCreate_dedup_and_idempotent wLocalTree [wExtTree] "Beta"
      (by decide) (by decide)).2.2 (by decide) (by decide)

end Rcx
